import Mathlib

/-!
Verification of the process-orchestration bridge in `demo/streamlit_app.py`:
the streaming process runner (`run_cli_stream`), the trailing-JSON-record
extractor (`extract_last_json_block`), URL normalization (`normalize_url`),
the deployment progress tracker (`update_progress_step`) and the tool
operations (`tool_deploy`, `tool_diagnose`, `tool_tail_logs`,
`tool_modify_plan`).

The Python functions are shallowly embedded: the ambient Streamlit session
state becomes an explicit `AppState` value threaded through the functions,
the spawned external process becomes an explicit `ProcBehavior` parameter
describing what the process did, and an uncaught Python exception becomes
the `Except.error` branch of the result.  `json.loads` (Python standard
library, called by the source) is modelled by the executable parser
`loadsL` below, following the grammar implemented by `json.decoder`.
-/

mutual
/-- A JSON value as produced by `json.loads`.  Numbers keep their source
literal (Python converts to `int`/`float`; no claim depends on numeric
arithmetic).  Object fields are kept in parse order; Python builds a `dict`
where a duplicated key keeps the last value, so lookups below take the last
matching field.  The element and field sequences are separate mutual
inductives (rather than `List`) so that decidable equality can be
derived. -/
inductive Json where
  | null
  | bool (b : Bool)
  | num (lit : String)
  | str (s : String)
  | arr (elems : JsonElems)
  | obj (fields : JsonFields)
deriving DecidableEq
inductive JsonElems where
  | nil
  | cons (hd : Json) (tl : JsonElems)
deriving DecidableEq
inductive JsonFields where
  | nil
  | cons (key : String) (val : Json) (tl : JsonFields)
deriving DecidableEq
end

def JsonElems.ofList : List Json → JsonElems
  | [] => JsonElems.nil
  | x :: xs => JsonElems.cons x (JsonElems.ofList xs)

def JsonFields.ofList : List (String × Json) → JsonFields
  | [] => JsonFields.nil
  | (k, v) :: xs => JsonFields.cons k v (JsonFields.ofList xs)

def JsonFields.toList : JsonFields → List (String × Json)
  | JsonFields.nil => []
  | JsonFields.cons k v tl => (k, v) :: JsonFields.toList tl

def JsonElems.toList : JsonElems → List Json
  | JsonElems.nil => []
  | JsonElems.cons x tl => x :: JsonElems.toList tl

def JsonElems.isNil : JsonElems → Bool
  | JsonElems.nil => true
  | JsonElems.cons _ _ => false

def JsonFields.isNil : JsonFields → Bool
  | JsonFields.nil => true
  | JsonFields.cons _ _ _ => false

/-- JSON inter-token whitespace, as in `json.decoder` (space, tab, newline,
carriage return). -/
def jsonWsChar (c : Char) : Bool :=
  c == ' ' || c == '\t' || c == '\n' || c == '\r'

def skipWs (cs : List Char) : List Char := cs.dropWhile jsonWsChar

def hexDigit (c : Char) : Option Nat :=
  if '0' ≤ c ∧ c ≤ '9' then some (c.toNat - '0'.toNat)
  else if 'a' ≤ c ∧ c ≤ 'f' then some (c.toNat - 'a'.toNat + 10)
  else if 'A' ≤ c ∧ c ≤ 'F' then some (c.toNat - 'A'.toNat + 10)
  else none

/-- Body of a JSON string after the opening quote, in strict mode: raw
control characters below 0x20 are rejected, the standard escapes are
decoded, `\uXXXX` decodes to the corresponding character.  (Surrogate-pair
combination done by Python for astral characters is not modelled; no input
in this development uses it.) -/
def parseStringBody : List Char → List Char → Option (String × List Char)
  | _, [] => none
  | acc, '"' :: rest => some (String.mk acc.reverse, rest)
  | acc, '\\' :: '"' :: rest => parseStringBody ('"' :: acc) rest
  | acc, '\\' :: '\\' :: rest => parseStringBody ('\\' :: acc) rest
  | acc, '\\' :: '/' :: rest => parseStringBody ('/' :: acc) rest
  | acc, '\\' :: 'b' :: rest => parseStringBody ('\x08' :: acc) rest
  | acc, '\\' :: 'f' :: rest => parseStringBody ('\x0c' :: acc) rest
  | acc, '\\' :: 'n' :: rest => parseStringBody ('\n' :: acc) rest
  | acc, '\\' :: 'r' :: rest => parseStringBody ('\r' :: acc) rest
  | acc, '\\' :: 't' :: rest => parseStringBody ('\t' :: acc) rest
  | acc, '\\' :: 'u' :: h1 :: h2 :: h3 :: h4 :: rest =>
    match hexDigit h1, hexDigit h2, hexDigit h3, hexDigit h4 with
    | some a, some b, some c, some d =>
      parseStringBody (Char.ofNat (((a * 16 + b) * 16 + c) * 16 + d) :: acc) rest
    | _, _, _, _ => none
  | _, '\\' :: _ => none
  | acc, c :: rest => if c.toNat < 32 then none else parseStringBody (c :: acc) rest

/-- A JSON number literal, mirroring the regular expression used by
`json.decoder`: an optional minus, an integer part with no leading zero,
then optional fraction and exponent groups, each consumed only when fully
well-formed (a dangling `.` or `e` is left unconsumed, as the regular
expression simply does not match those groups). -/
def parseNumber (cs : List Char) : Option (String × List Char) :=
  let (negChars, cs1) :=
    match cs with
    | '-' :: rest => (['-'], rest)
    | _ => (([] : List Char), cs)
  match cs1 with
  | [] => none
  | c :: rest =>
    if c == '0' then
      some (negChars ++ ['0'], rest) |>.map (fun p => afterInt p.1 p.2)
    else if c.isDigit then
      let ds := rest.takeWhile Char.isDigit
      some (afterInt (negChars ++ (c :: ds)) (rest.dropWhile Char.isDigit))
    else none
where
  afterInt (intPart : List Char) (cs2 : List Char) : String × List Char :=
    let (fracPart, cs3) :=
      match cs2 with
      | '.' :: d :: rest2 =>
        if d.isDigit then
          ('.' :: d :: rest2.takeWhile Char.isDigit, rest2.dropWhile Char.isDigit)
        else (([] : List Char), cs2)
      | _ => (([] : List Char), cs2)
    let (expPart, cs4) :=
      match cs3 with
      | e :: rest3 =>
        if e == 'e' || e == 'E' then
          match rest3 with
          | s :: rest4 =>
            if s == '+' || s == '-' then
              match rest4 with
              | d :: _ =>
                if d.isDigit then
                  (e :: s :: rest4.takeWhile Char.isDigit, rest4.dropWhile Char.isDigit)
                else (([] : List Char), cs3)
              | [] => (([] : List Char), cs3)
            else if s.isDigit then
              (e :: rest3.takeWhile Char.isDigit, rest3.dropWhile Char.isDigit)
            else (([] : List Char), cs3)
          | [] => (([] : List Char), cs3)
        else (([] : List Char), cs3)
      | [] => (([] : List Char), cs3)
    (String.mk (intPart ++ fracPart ++ expPart), cs4)

mutual

/-- One JSON value, mirroring `json.scanner.py_make_scanner`: strings,
objects, arrays, the three literals, numbers, and the non-standard
constants `NaN`, `Infinity`, `-Infinity` accepted by Python by default.
`fuel` bounds the recursion depth; callers pass at least the input length
plus one, which is sufficient since every recursive call consumes at least
one character first. -/
def parseVal : Nat → List Char → Option (Json × List Char)
  | 0, _ => none
  | Nat.succ fuel, cs =>
    match cs with
    | '"' :: rest => (parseStringBody [] rest).map (fun p => (Json.str p.1, p.2))
    | '{' :: rest =>
      (match skipWs rest with
       | '}' :: rest2 => some (Json.obj JsonFields.nil, rest2)
       | cs2 => parseMembers fuel cs2 [])
    | '[' :: rest =>
      (match skipWs rest with
       | ']' :: rest2 => some (Json.arr JsonElems.nil, rest2)
       | cs2 => parseElems fuel cs2 [])
    | 't' :: 'r' :: 'u' :: 'e' :: rest => some (Json.bool true, rest)
    | 'f' :: 'a' :: 'l' :: 's' :: 'e' :: rest => some (Json.bool false, rest)
    | 'n' :: 'u' :: 'l' :: 'l' :: rest => some (Json.null, rest)
    | 'N' :: 'a' :: 'N' :: rest => some (Json.num "NaN", rest)
    | 'I' :: 'n' :: 'f' :: 'i' :: 'n' :: 'i' :: 't' :: 'y' :: rest =>
      some (Json.num "Infinity", rest)
    | '-' :: 'I' :: 'n' :: 'f' :: 'i' :: 'n' :: 'i' :: 't' :: 'y' :: rest =>
      some (Json.num "-Infinity", rest)
    | _ => (parseNumber cs).map (fun p => (Json.num p.1, p.2))

/-- Object members after the opening brace and any whitespace, when the
object is not empty: a quoted key, a colon, a value, then a comma or the
closing brace. -/
def parseMembers : Nat → List Char → List (String × Json) → Option (Json × List Char)
  | 0, _, _ => none
  | Nat.succ fuel, cs, acc =>
    match cs with
    | '"' :: rest =>
      (match parseStringBody [] rest with
       | none => none
       | some (key, cs1) =>
         match skipWs cs1 with
         | ':' :: cs2 =>
           (match parseVal fuel (skipWs cs2) with
            | none => none
            | some (v, cs3) =>
              match skipWs cs3 with
              | ',' :: cs4 => parseMembers fuel (skipWs cs4) (acc ++ [(key, v)])
              | '}' :: cs4 => some (Json.obj (JsonFields.ofList (acc ++ [(key, v)])), cs4)
              | _ => none)
         | _ => none)
    | _ => none

/-- Array elements after the opening bracket and any whitespace, when the
array is not empty. -/
def parseElems : Nat → List Char → List Json → Option (Json × List Char)
  | 0, _, _ => none
  | Nat.succ fuel, cs, acc =>
    match parseVal fuel cs with
    | none => none
    | some (v, cs1) =>
      match skipWs cs1 with
      | ',' :: cs2 => parseElems fuel (skipWs cs2) (acc ++ [v])
      | ']' :: cs2 => some (Json.arr (JsonElems.ofList (acc ++ [v])), cs2)
      | _ => none

end

/-- Model of `json.loads`: skip leading whitespace, parse one value, and
require that only whitespace remains (otherwise Python raises "Extra
data"); a Python exception is `none`. -/
def loadsL (cs : List Char) : Option Json :=
  match parseVal (cs.length + 1) (skipWs cs) with
  | some (v, rest) => if (skipWs rest).isEmpty then some v else none
  | none => none

/-- One probe of the backward scan in `extract_last_json_block`: if the
character at index `i` is an opening brace, the result of `json.loads` on
the suffix starting there, otherwise nothing (a parse exception is caught
and the scan continues). -/
def parsesAt (s : List Char) (i : Nat) : Option Json :=
  if s[i]? = some '{' then loadsL (s.drop i) else none

/-- The loop `for i in range(len(s) - 1, -1, -1)` of
`extract_last_json_block`: `scanDown s (i + 1)` probes index `i` first and
recurses downward on failure. -/
def scanDown (s : List Char) : Nat → Option Json
  | 0 => none
  | Nat.succ i =>
    match parsesAt s i with
    | some v => some v
    | none => scanDown s i

/-- `extract_last_json_block` from the source: scan the text from its last
character backward for a `'\x7b'` and return the first suffix that
`json.loads` accepts, or `none` when no suffix parses. -/
def extract_last_json_block (text : String) : Option Json :=
  scanDown text.data text.data.length

/-- `dict.get(key)` on a decoded JSON value guarded by `isinstance(v, dict)`:
`none` unless the value is an object containing the key; with a duplicated
key the Python `dict` holds the last value, so the last matching field
wins. -/
def dictGet (v : Json) (k : String) : Option Json :=
  match v with
  | Json.obj fields => ((fields.toList.reverse).find? (fun kv => kv.1 == k)).map (fun kv => kv.2)
  | _ => none

/-- Whether a JSON number literal denotes the number zero (its mantissa has
digits and they are all `0`; the exponent is irrelevant).  Used for Python
truthiness of decoded numbers. -/
def numLitIsZero (lit : String) : Bool :=
  let mantissa := lit.data.takeWhile (fun c => !(c == 'e' || c == 'E'))
  let ds := mantissa.filter Char.isDigit
  !ds.isEmpty && ds.all (fun c => c == '0')

/-- Python truthiness of a decoded JSON value: `None` and `False` are
falsy, a number is falsy when zero, a string/list/dict is falsy when
empty. -/
def jsonTruthy : Json → Bool
  | Json.null => false
  | Json.bool b => b
  | Json.num lit => !numLitIsZero lit
  | Json.str s => !s.isEmpty
  | Json.arr xs => !xs.isNil
  | Json.obj fields => !fields.isNil

/-- Characters stripped by Python `str.strip()` with no argument (the
whitespace characters of `str.isspace()`). -/
def pyIsSpace (c : Char) : Bool :=
  let n := c.toNat
  (9 ≤ n && n ≤ 13) || n == 32 || (28 ≤ n && n ≤ 31) || n == 0x85 || n == 0xa0 ||
    n == 0x1680 || (0x2000 ≤ n && n ≤ 0x200a) || n == 0x2028 || n == 0x2029 ||
    n == 0x202f || n == 0x205f || n == 0x3000

/-- Python `s.strip()`. -/
def pyStrip (s : String) : String :=
  String.mk (((s.data.dropWhile pyIsSpace).reverse.dropWhile pyIsSpace).reverse)

def startsWithL : List Char → List Char → Bool
  | [], _ => true
  | _ :: _, [] => false
  | p :: ps, c :: cs => p == c && startsWithL ps cs

/-- Python `s.startswith(pre)`. -/
def pyStartsWith (s pre : String) : Bool := startsWithL pre.data s.data

/-- `normalize_url` from the source: `None` and the empty string are
returned unchanged (`if not u`); otherwise the input is stripped, kept as
is when it already carries an explicit scheme, prefixed with `https:` when
scheme-relative, and prefixed with `https://` otherwise. -/
def normalize_url : Option String → Option String
  | none => none
  | some u =>
    if u.isEmpty then some u
    else
      let s := pyStrip u
      if pyStartsWith s "http://" || pyStartsWith s "https://" then some s
      else if pyStartsWith s "//" then some ("https:" ++ s)
      else some ("https://" ++ s)

/-- Line-break characters of Python `str.splitlines()` (ASCII breaks plus
NEL and the Unicode line and paragraph separators). -/
def isLineBreak (c : Char) : Bool :=
  c == '\n' || c == '\r' || c == '\x0b' || c == '\x0c' || c == '\x1c' ||
    c == '\x1d' || c == '\x1e' || c == '\x85' || c == '\u2028' || c == '\u2029'

def splitlinesAux (acc : List Char) : List Char → List String
  | [] => if acc.isEmpty then [] else [String.mk acc.reverse]
  | '\r' :: '\n' :: rest => String.mk acc.reverse :: splitlinesAux [] rest
  | c :: rest =>
    if isLineBreak c then String.mk acc.reverse :: splitlinesAux [] rest
    else splitlinesAux (c :: acc) rest

/-- Python `s.splitlines()`: split at line breaks, treating `\r\n` as one
break, with no trailing empty line for a trailing break. -/
def splitlines (s : String) : List String := splitlinesAux [] s.data

/-- Python `xs[-n:]`: the suffix of at most the last `n` elements. -/
def lastN (n : Nat) (xs : List α) : List α := xs.drop (xs.length - n)

/-- An event yielded by the `run_cli_stream` generator: a line of combined
standard output, the end of the process with its exit code and the
concatenation of all lines, or a caught read failure. -/
inductive StreamEvent where
  | line (text : String)
  | ends (exitCode : Int) (fullText : String)
  | error (message : String)
deriving DecidableEq

def StreamEvent.isLine : StreamEvent → Bool
  | StreamEvent.line _ => true
  | _ => false

def StreamEvent.isTerminal : StreamEvent → Bool
  | StreamEvent.line _ => false
  | _ => true

/-- What the external process did during one invocation, the environment
parameter of the embedding: `subprocess.Popen` itself raised (it sits
outside the `try` block in the source), or reading raised after some lines
were yielded (the read loop, `stdout.close()` and `wait()` are inside the
`try`), or the process delivered its lines and exited. -/
inductive ProcBehavior where
  | spawnRaise (message : String)
  | readRaise (got : List String) (message : String)
  | exits (lines : List String) (exitCode : Int)
deriving DecidableEq

/-- The events yielded by one invocation together with whether the
`except` block attempted `process.kill()`. -/
structure RunOutcome where
  events : List StreamEvent
  killAttempted : Bool
deriving DecidableEq

/-- `run_cli_stream` from the source.  `Except.error` is an uncaught Python
exception escaping the generator: `Popen` is evaluated outside the
`try`/`except`, so a spawn failure propagates to the consumer before any
event is yielded and without any kill attempt.  A read failure is caught:
the child is killed and a single `error` event is yielded after the lines
already delivered.  On normal exit the lines are followed by a single
`ends` event carrying the exit code and `"".join` of all lines. -/
def run_cli_stream : ProcBehavior → Except String RunOutcome
  | ProcBehavior.spawnRaise msg => Except.error msg
  | ProcBehavior.readRaise got msg =>
    Except.ok ⟨got.map StreamEvent.line ++ [StreamEvent.error msg], true⟩
  | ProcBehavior.exits ls rc =>
    Except.ok ⟨ls.map StreamEvent.line ++ [StreamEvent.ends rc (String.join ls)], false⟩

/-- The lines the process actually delivered during an invocation. -/
def procLines : ProcBehavior → List String
  | ProcBehavior.spawnRaise _ => []
  | ProcBehavior.readRaise got _ => got
  | ProcBehavior.exits ls _ => ls

/-- The sequence of events the generator yields to its consumer; empty when
the generator raises before yielding anything. -/
def producedEvents (b : ProcBehavior) : List StreamEvent :=
  match run_cli_stream b with
  | Except.ok out => out.events
  | Except.error _ => []

/-- The session preference mapping held in `st.session_state["prefs"]`. -/
structure Prefs where
  provider : Option String
  method : Option String
  output_dir : Option String
  domain : Option String
deriving DecidableEq

/-- The `st.session_state.deploy_progress` record. -/
structure Progress where
  step : Nat
  status : String
deriving DecidableEq

/-- The parts of the Streamlit session state the embedded operations read
or write. -/
structure AppState where
  prefs : Prefs
  progress : Progress
  currentLogs : String
  lastDeployUrl : Option String
deriving DecidableEq

/-- The session state right after initialization: empty preferences,
progress `step 0, idle`, empty log buffer, no cached URL. -/
def initState : AppState :=
  ⟨⟨none, none, none, none⟩, ⟨0, "idle"⟩, "", none⟩

/-- `update_progress_step` from the source: overwrite
`st.session_state.deploy_progress` with the given step and status (the
toast on completion is presentation only). -/
def update_progress_step (st : AppState) (step : Nat) (status : String) : AppState :=
  { st with progress := ⟨step, status⟩ }

/-- Truthiness of an `Optional[str]` argument: `None` and `""` are falsy. -/
def pyTruthyOptStr : Option String → Bool
  | none => false
  | some s => !s.isEmpty

/-- The record `tool_deploy` falls back to when the loop ends without a
captured record (serialized by `json.dumps` at the tool boundary). -/
def errRecord : Json :=
  Json.obj (JsonFields.ofList
    [("type", Json.str "Error"),
     ("message", Json.str "Deploy finished but no JSON record captured.")])

instance {ε α : Type} [DecidableEq ε] [DecidableEq α] : DecidableEq (Except ε α) := fun x y =>
  match x, y with
  | Except.error a, Except.error b =>
    if h : a = b then isTrue (by rw [h]) else isFalse (by simp [h])
  | Except.ok a, Except.ok b =>
    if h : a = b then isTrue (by rw [h]) else isFalse (by simp [h])
  | Except.error _, Except.ok _ => isFalse (by simp)
  | Except.ok _, Except.error _ => isFalse (by simp)

/-- Result of one `tool_deploy` invocation: the returned record (or the
uncaught exception), the session state afterwards, and the sequence of
progress records written during the invocation. -/
structure DeployOut where
  result : Except String Json
  state : AppState
  trace : List Progress
deriving DecidableEq

/-- The event loop of `tool_deploy`: a `line` event appends to the buffer
and stores the running concatenation in `current_logs` (the batched
markdown refresh is presentation only); the `end` event flushes the
buffer, sets progress to step 3 active, and keeps the extracted record
when it is truthy (an empty dict fails the `if obj:` test); an `error`
event just breaks.  Returns the captured record, the state, and the
progress writes. -/
def deployLoop : AppState → List Progress → List String → List StreamEvent →
    Option Json × AppState × List Progress
  | st, tr, _, [] => (none, st, tr)
  | st, tr, buffer, StreamEvent.line t :: rest =>
    let buf2 := buffer ++ [t]
    deployLoop { st with currentLogs := String.join buf2 } tr buf2 rest
  | st, tr, buffer, StreamEvent.ends _ full :: _ =>
    let st2 := update_progress_step { st with currentLogs := String.join buffer } 3 "active"
    let fj : Option Json :=
      match extract_last_json_block full with
      | some v => if jsonTruthy v then some v else none
      | none => none
    (fj, st2, tr ++ [⟨3, "active"⟩])
  | st, tr, _, StreamEvent.error _ :: _ => (none, st, tr)

/-- `tool_deploy` from the source, with the shell command string elided
(the process behavior is the `ProcBehavior` parameter) and the UI
placeholders dropped.  Progress goes to step 2 active, the event loop
runs, and then: no captured record returns the fallback error record with
no further progress write; a record whose `url` field is truthy caches the
normalized URL and completes step 4; a truthy non-string `url` makes
`normalize_url` raise (`strip` on a non-string); otherwise step 3 is
completed. -/
def tool_deploy (b : ProcBehavior) (st0 : AppState) : DeployOut :=
  let st1 := update_progress_step st0 2 "active"
  let tr1 : List Progress := [⟨2, "active"⟩]
  match run_cli_stream b with
  | Except.error msg => ⟨Except.error msg, st1, tr1⟩
  | Except.ok out =>
    match deployLoop st1 tr1 [] out.events with
    | (none, st2, tr2) => ⟨Except.ok errRecord, st2, tr2⟩
    | (some v, st2, tr2) =>
      match dictGet v "url" with
      | some u =>
        if jsonTruthy u then
          match u with
          | Json.str s =>
            ⟨Except.ok v,
             update_progress_step { st2 with lastDeployUrl := normalize_url (some s) } 4 "completed",
             tr2 ++ [⟨4, "completed"⟩]⟩
          | _ => ⟨Except.error "AttributeError", st2, tr2⟩
        else
          ⟨Except.ok v, update_progress_step st2 3 "completed", tr2 ++ [⟨3, "completed"⟩]⟩
      | none =>
        ⟨Except.ok v, update_progress_step st2 3 "completed", tr2 ++ [⟨3, "completed"⟩]⟩

/-- `tool_modify_plan` from the source: each truthy argument overwrites its
field of the stored preferences, falsy arguments (`None` or `""`) leave
the field untouched.  (The returned `PrefsUpdated` record serializes the
same mapping and is not modelled separately.) -/
def tool_modify_plan (provider method output_dir domain : Option String)
    (prefs : Prefs) : Prefs :=
  { provider := if pyTruthyOptStr provider then provider else prefs.provider
    method := if pyTruthyOptStr method then method else prefs.method
    output_dir := if pyTruthyOptStr output_dir then output_dir else prefs.output_dir
    domain := if pyTruthyOptStr domain then domain else prefs.domain }

/-- Result of `tool_diagnose` (the `json.dumps` at the boundary is elided:
`parsed` carries the decoded record, `raw` the unparsed full text,
`fromError` the message of an `error` event, `fellThrough` the literal
empty-object fallback after a loop without a terminal event). -/
inductive DiagnoseResult where
  | rejected
  | parsed (record : Json)
  | raw (text : String)
  | fromError (message : String)
  | fellThrough
deriving DecidableEq

def diagLoop : List StreamEvent → DiagnoseResult
  | [] => DiagnoseResult.fellThrough
  | StreamEvent.line _ :: rest => diagLoop rest
  | StreamEvent.ends _ full :: _ =>
    (match loadsL full.data with
     | some v => DiagnoseResult.parsed v
     | none => DiagnoseResult.raw full)
  | StreamEvent.error msg :: _ => DiagnoseResult.fromError msg

/-- `tool_diagnose` from the source: when both `log_path` and `record_id`
are falsy the call is rejected with the descriptive message before any
command is built (the second component records whether the external tool
was invoked); otherwise the command runs and the output is parsed like
`tool_plan`.  A spawn failure propagates as an exception. -/
def tool_diagnose (_project_path log_path record_id : Option String)
    (b : ProcBehavior) : Except String DiagnoseResult × Bool :=
  if !pyTruthyOptStr log_path && !pyTruthyOptStr record_id then
    (Except.ok DiagnoseResult.rejected, false)
  else
    match run_cli_stream b with
    | Except.error msg => (Except.error msg, true)
    | Except.ok out => (Except.ok (diagLoop out.events), true)

/-- The filesystem as `tool_tail_logs` sees it: the content of
`state/deployments.json` when that file exists, and the existing log files
with their contents. -/
structure FileSys where
  deploymentsJson : Option String
  files : List (String × String)
deriving DecidableEq

def fsRead (fs : FileSys) (p : String) : Option String :=
  (fs.files.find? (fun e => e.1 == p)).map (fun e => e.2)

/-- Result of `tool_tail_logs`.  `noRecord` is the
"No record found for id ..." message, `noLogs` the "No logs found at ..."
message (carrying the `logsPath` value it interpolates), `errored` the
`"Error: ..."` string produced by the catch-all `except`. -/
inductive TailResult where
  | noStateFile
  | noRecord (rid : String)
  | noLogs (logsPath : Option Json)
  | logs (text : String)
  | errored
deriving DecidableEq

def Json.isObj : Json → Bool
  | Json.obj _ => true
  | _ => false

/-- The condition `r.get("id") == record_id` of the record search: Python
equality between the decoded `id` field and the identifier string, which
holds only when the field is that string. -/
def idMatches (rid : String) (r : Json) : Bool :=
  match dictGet r "id" with
  | some (Json.str s) => s == rid
  | _ => false

/-- The generator `next((r for r in data[::-1] if r.get("id") == record_id), None)`
over the already reversed list: a non-dict element reached before a match
raises `AttributeError` (caught by the outer `except`); a dict matches when
its `id` field equals the identifier string. -/
def findRecordRev (rid : String) : List Json → Except Unit (Option Json)
  | [] => Except.ok none
  | r :: rs =>
    match r with
    | Json.obj _ =>
      if idMatches rid r then Except.ok (some r) else findRecordRev rid rs
    | _ => Except.error ()

/-- `tool_tail_logs` from the source.  The second component records whether
a log file was read (`read_text`).  The history file must decode to a list
(`data[::-1]` over a decoded non-list raises, except for the empty string,
which reverses to an empty iteration); the matched record's `logsPath` must
be a truthy string naming an existing file, otherwise the distinct
"no logs" soft error is returned; on success the last 200 lines are
joined with newlines. -/
def tool_tail_logs (record_id : String) (fs : FileSys) : TailResult × Bool :=
  match fs.deploymentsJson with
  | none => (TailResult.noStateFile, false)
  | some txt =>
    match loadsL txt.data with
    | none => (TailResult.errored, false)
    | some (Json.arr items) =>
      (match findRecordRev record_id items.toList.reverse with
       | Except.error _ => (TailResult.errored, false)
       | Except.ok none => (TailResult.noRecord record_id, false)
       | Except.ok (some r) =>
         match dictGet r "logsPath" with
         | some (Json.str p) =>
           if p.isEmpty then (TailResult.noLogs (some (Json.str p)), false)
           else
             match fsRead fs p with
             | none => (TailResult.noLogs (some (Json.str p)), false)
             | some content =>
               (TailResult.logs (String.intercalate "\n" (lastN 200 (splitlines content))), true)
         | some v =>
           if jsonTruthy v then (TailResult.errored, false)
           else (TailResult.noLogs (some v), false)
         | none => (TailResult.noLogs none, false))
    | some (Json.str s) =>
      if s.isEmpty then (TailResult.noRecord record_id, false)
      else (TailResult.errored, false)
    | some _ => (TailResult.errored, false)

/-- The net state effect of the `line` events preceding a caught read
failure: no line leaves the state untouched, otherwise `current_logs`
holds the concatenation of the buffer so far and the delivered lines. -/
def deployFeed (st : AppState) (buffer got : List String) : AppState :=
  match got with
  | [] => st
  | _ => { st with currentLogs := String.join (buffer ++ got) }

/-- The URL normalization rule exactly as the specification words it, with
no stripping: unchanged when the value already starts with an explicit
scheme, `https:`-prefixed when scheme-relative, `https://`-prefixed
otherwise.  Stated for comparison with `normalize_url` from the source,
which strips surrounding whitespace first. -/
def specNormalize (s : String) : String :=
  if pyStartsWith s "http://" || pyStartsWith s "https://" then s
  else if pyStartsWith s "//" then "https:" ++ s
  else "https://" ++ s

theorem parsesAt_of_length_le (s : List Char) (i : Nat) (h : s.length ≤ i) :
    parsesAt s i = none := by
  simp [parsesAt, List.getElem?_eq_none h]

theorem scanDown_eq_none_iff (s : List Char) :
    ∀ n, scanDown s n = none ↔ ∀ i, i < n → parsesAt s i = none := by
  intro n
  induction n with
  | zero => simp [scanDown]
  | succ k ih =>
    rw [scanDown]
    cases hk : parsesAt s k with
    | some w =>
      simp only [hk]
      constructor
      · intro h; cases h
      · intro h
        have := h k (Nat.lt_succ_self k)
        rw [this] at hk
        cases hk
    | none =>
      simp only [hk, ih]
      constructor
      · intro h i hi
        rcases Nat.lt_succ_iff_lt_or_eq.mp hi with hlt | heq
        · exact h i hlt
        · rw [heq]; exact hk
      · intro h i hi
        exact h i (Nat.lt_succ_of_lt hi)

theorem scanDown_eq_some_iff (s : List Char) (v : Json) :
    ∀ n, scanDown s n = some v ↔
      ∃ i, i < n ∧ parsesAt s i = some v ∧ ∀ j, i < j → j < n → parsesAt s j = none := by
  intro n
  induction n with
  | zero => simp [scanDown]
  | succ k ih =>
    rw [scanDown]
    cases hk : parsesAt s k with
    | some w =>
      simp only [hk]
      constructor
      · intro h
        refine ⟨k, Nat.lt_succ_self k, ?_, ?_⟩
        · rw [hk, h]
        · intro j hj1 hj2; omega
      · rintro ⟨i, hik, hi, hrest⟩
        have hieq : i = k := by
          by_contra hne
          have h1 : i < k := by omega
          have h2 := hrest k h1 (Nat.lt_succ_self k)
          rw [h2] at hk
          cases hk
        rw [hieq] at hi
        rw [hi] at hk
        exact hk.symm
    | none =>
      simp only [hk, ih]
      constructor
      · rintro ⟨i, hik, hi, hrest⟩
        refine ⟨i, by omega, hi, ?_⟩
        intro j hj1 hj2
        rcases Nat.lt_succ_iff_lt_or_eq.mp hj2 with hlt | heq
        · exact hrest j hj1 hlt
        · rw [heq]; exact hk
      · rintro ⟨i, hik, hi, hrest⟩
        have hik' : i < k := by
          rcases Nat.lt_succ_iff_lt_or_eq.mp hik with hlt | heq
          · exact hlt
          · rw [heq] at hi; rw [hi] at hk; cases hk
        exact ⟨i, hik', hi, fun j hj1 hj2 => hrest j hj1 (by omega)⟩

theorem parsesAt_append (p t : List Char) (j : Nat) :
    parsesAt (p ++ t) (p.length + j) = parsesAt t j := by
  unfold parsesAt
  rw [List.getElem?_append_right (by omega), List.drop_append]
  simp

/-- C1: for every input string, `extract_last_json_block` returns the value
parsed from the rightmost-starting suffix that `json.loads` accepts as a
complete structured object, and returns `none` when no suffix starting at
an opening brace parses; consequently, any text followed by exactly one
well-formed trailing structured object (no suffix starting strictly inside
it parses, which covers nested objects, whose inner fragments leave
unbalanced closers behind) extracts to that outermost trailing object
unchanged. -/
theorem extract_last_json_block_rightmost (s : String) (p t : List Char) (v : Json) :
    (extract_last_json_block s = none ↔ ∀ i, parsesAt s.data i = none)
    ∧ (∀ w, extract_last_json_block s = some w ↔
        ∃ i, parsesAt s.data i = some w ∧ ∀ j, i < j → parsesAt s.data j = none)
    ∧ (loadsL t = some v → t.head? = some '{' →
        (∀ j, j < t.length → 0 < j → parsesAt t j = none) →
        extract_last_json_block (String.mk (p ++ t)) = some v) := by
  refine ⟨?_, ?_, ?_⟩
  · rw [extract_last_json_block, scanDown_eq_none_iff]
    constructor
    · intro h i
      by_cases hi : i < s.data.length
      · exact h i hi
      · exact parsesAt_of_length_le s.data i (by omega)
    · intro h i _
      exact h i
  · intro w
    rw [extract_last_json_block, scanDown_eq_some_iff]
    constructor
    · rintro ⟨i, _, hi, hrest⟩
      refine ⟨i, hi, ?_⟩
      intro j hj
      by_cases hjl : j < s.data.length
      · exact hrest j hj hjl
      · exact parsesAt_of_length_le s.data j (by omega)
    · rintro ⟨i, hi, hrest⟩
      have hil : i < s.data.length := by
        by_contra hge
        rw [parsesAt_of_length_le s.data i (by omega)] at hi
        cases hi
      exact ⟨i, hil, hi, fun j hj1 _ => hrest j hj1⟩
  · intro hload hhead hinner
    have ht0 : 0 < t.length := by
      cases t with
      | nil => cases hhead
      | cons a tl => simp
    rw [extract_last_json_block]
    have hdata : (String.mk (p ++ t)).data = p ++ t := rfl
    rw [hdata, scanDown_eq_some_iff]
    refine ⟨p.length, by simp [List.length_append]; omega, ?_, ?_⟩
    · have h0 := parsesAt_append p t 0
      rw [Nat.add_zero] at h0
      rw [h0]
      unfold parsesAt
      have : t[0]? = t.head? := by cases t <;> simp
      rw [this, hhead]
      simp [hload]
    · intro j hj1 hj2
      have hj : j = p.length + (j - p.length) := by omega
      rw [hj, parsesAt_append]
      refine hinner (j - p.length) ?_ (by omega)
      have := List.length_append p t
      omega

theorem extract_last_json_block_rightmost_witness :
    loadsL "\x7b\"a\": \x7b\"b\": 1\x7d\x7d".data =
      some (Json.obj (JsonFields.ofList
        [("a", Json.obj (JsonFields.ofList [("b", Json.num "1")]))]))
    ∧ extract_last_json_block
        (String.mk ("noise ".data ++ "\x7b\"a\": \x7b\"b\": 1\x7d\x7d".data)) =
      some (Json.obj (JsonFields.ofList
        [("a", Json.obj (JsonFields.ofList [("b", Json.num "1")]))])) :=
  ⟨by decide,
   (extract_last_json_block_rightmost "" "noise ".data "\x7b\"a\": \x7b\"b\": 1\x7d\x7d".data
      (Json.obj (JsonFields.ofList
        [("a", Json.obj (JsonFields.ofList [("b", Json.num "1")]))]))).2.2
     (by decide) (by decide) (by decide)⟩

theorem deployLoop_lines_ends (rc : Int) (full : String) :
    ∀ (ls : List String) (st : AppState) (tr : List Progress) (buffer : List String),
      deployLoop st tr buffer (ls.map StreamEvent.line ++ [StreamEvent.ends rc full]) =
        ((match extract_last_json_block full with
          | some v => if jsonTruthy v then some v else none
          | none => none),
         ⟨st.prefs, ⟨3, "active"⟩, String.join (buffer ++ ls), st.lastDeployUrl⟩,
         tr ++ [⟨3, "active"⟩]) := by
  intro ls
  induction ls with
  | nil =>
    intro st tr buffer
    cases st
    simp [deployLoop, update_progress_step]
  | cons l ls ih =>
    intro st tr buffer
    simp only [List.map_cons, List.cons_append, deployLoop, List.append_eq]
    rw [ih]
    cases st
    simp

theorem deployLoop_lines_error (msg : String) :
    ∀ (got : List String) (st : AppState) (tr : List Progress) (buffer : List String),
      deployLoop st tr buffer (got.map StreamEvent.line ++ [StreamEvent.error msg]) =
        (none, deployFeed st buffer got, tr) := by
  intro got
  induction got with
  | nil =>
    intro st tr buffer
    simp [deployLoop, deployFeed]
  | cons g gs ih =>
    intro st tr buffer
    simp only [List.map_cons, List.cons_append, deployLoop, List.append_eq]
    rw [ih]
    cases gs with
    | nil => cases st; simp [deployFeed]
    | cons g2 gs2 => cases st; simp [deployFeed]

theorem deployFeed_progress (st : AppState) (buffer got : List String) :
    (deployFeed st buffer got).progress = st.progress := by
  cases got <;> rfl

/-- C2 (amended): a deploy invocation whose process exits with a nonzero
code and whose full output has no parseable trailing structured object
returns the record with type `Error` and the fixed no-record message, and
the progress state at the end of the invocation is step 3 with status
`active` — the early return on the no-record path skips the
`completed` transition. -/
theorem tool_deploy_extraction_miss (ls : List String) (rc : Int) (st : AppState)
    (_hrc : rc ≠ 0) (hex : extract_last_json_block (String.join ls) = none) :
    tool_deploy (ProcBehavior.exits ls rc) st =
      ⟨Except.ok errRecord,
       ⟨st.prefs, ⟨3, "active"⟩, String.join ls, st.lastDeployUrl⟩,
       [⟨2, "active"⟩, ⟨3, "active"⟩]⟩ := by
  simp only [tool_deploy, run_cli_stream]
  rw [deployLoop_lines_ends]
  simp [hex, update_progress_step]

theorem tool_deploy_extraction_miss_witness :
    (2 : Int) ≠ 0
    ∧ extract_last_json_block (String.join ["boom\n"]) = none
    ∧ tool_deploy (ProcBehavior.exits ["boom\n"] 2) initState =
        ⟨Except.ok errRecord,
         ⟨initState.prefs, ⟨3, "active"⟩, String.join ["boom\n"], initState.lastDeployUrl⟩,
         [⟨2, "active"⟩, ⟨3, "active"⟩]⟩ :=
  ⟨by decide, by decide,
   tool_deploy_extraction_miss ["boom\n"] 2 initState (by decide) (by decide)⟩

/-- C2 counterexample: at exit code 1 with output "Deploy failed\n" (no
parseable trailing object) the returned record is the error record, but
the final progress state is not step 3 completed — the claimed
`(3, completed)` is refuted. -/
theorem tool_deploy_extraction_miss_cex :
    extract_last_json_block (String.join ["Deploy failed\n"]) = none
    ∧ (tool_deploy (ProcBehavior.exits ["Deploy failed\n"] 1) initState).result =
        Except.ok errRecord
    ∧ (tool_deploy (ProcBehavior.exits ["Deploy failed\n"] 1) initState).state.progress =
        ⟨3, "active"⟩
    ∧ (⟨3, "active"⟩ : Progress) ≠ ⟨3, "completed"⟩ := by
  exact ⟨by decide, by decide, by decide, by decide⟩

/-- C10 (amended): a deploy invocation whose event stream ends with a read
failure `Error` event returns the same fallback error record as an
extraction miss (the return values are indistinguishable) and leaves the
progress state at step 2 active, whereas an extraction miss leaves step 3
active — so the two cases are distinguishable by the final progress state
although not by the returned record.  (A spawn failure yields no `Error`
event at all: the exception propagates out of `tool_deploy`.) -/
theorem tool_deploy_error_event (got : List String) (msg : String) (st st2 : AppState)
    (ls : List String) (rc : Int)
    (hex : extract_last_json_block (String.join ls) = none) :
    (tool_deploy (ProcBehavior.readRaise got msg) st).result = Except.ok errRecord
    ∧ (tool_deploy (ProcBehavior.readRaise got msg) st).state.progress = ⟨2, "active"⟩
    ∧ (tool_deploy (ProcBehavior.exits ls rc) st2).result =
        (tool_deploy (ProcBehavior.readRaise got msg) st).result
    ∧ (tool_deploy (ProcBehavior.exits ls rc) st2).state.progress = ⟨3, "active"⟩
    ∧ (tool_deploy (ProcBehavior.exits ls rc) st2).state.progress ≠
        (tool_deploy (ProcBehavior.readRaise got msg) st).state.progress := by
  have hread : tool_deploy (ProcBehavior.readRaise got msg) st =
      ⟨Except.ok errRecord,
       deployFeed (update_progress_step st 2 "active") [] got,
       [⟨2, "active"⟩]⟩ := by
    simp only [tool_deploy, run_cli_stream]
    rw [deployLoop_lines_error]
  have hmiss : tool_deploy (ProcBehavior.exits ls rc) st2 =
      ⟨Except.ok errRecord,
       ⟨st2.prefs, ⟨3, "active"⟩, String.join ls, st2.lastDeployUrl⟩,
       [⟨2, "active"⟩, ⟨3, "active"⟩]⟩ := by
    simp only [tool_deploy, run_cli_stream]
    rw [deployLoop_lines_ends]
    simp [hex, update_progress_step]
  rw [hread, hmiss]
  refine ⟨rfl, ?_, rfl, rfl, ?_⟩
  · rw [deployFeed_progress]
    rfl
  · rw [deployFeed_progress]
    simp [update_progress_step]

theorem tool_deploy_error_event_witness :
    extract_last_json_block (String.join ["hello\n"]) = none
    ∧ (tool_deploy (ProcBehavior.readRaise [] "read interrupted") initState).result =
        Except.ok errRecord
    ∧ (tool_deploy (ProcBehavior.readRaise [] "read interrupted") initState).state.progress =
        ⟨2, "active"⟩
    ∧ (tool_deploy (ProcBehavior.exits ["hello\n"] 0) initState).state.progress ≠
        (tool_deploy (ProcBehavior.readRaise [] "read interrupted") initState).state.progress :=
  ⟨by decide,
   (tool_deploy_error_event [] "read interrupted" initState initState ["hello\n"] 0 (by decide)).1,
   (tool_deploy_error_event [] "read interrupted" initState initState ["hello\n"] 0 (by decide)).2.1,
   (tool_deploy_error_event [] "read interrupted" initState initState ["hello\n"] 0 (by decide)).2.2.2.2⟩

/-- C10 counterexample: concrete read-failure and extraction-miss
invocations return the same record, yet their final progress states differ
(step 2 active versus step 3 active), refuting the claim that the caller
cannot distinguish them by inspecting the final progress state. -/
theorem tool_deploy_error_event_cex :
    (tool_deploy (ProcBehavior.readRaise [] "io failure") initState).result =
      (tool_deploy (ProcBehavior.exits ["building\n"] 0) initState).result
    ∧ (tool_deploy (ProcBehavior.readRaise [] "io failure") initState).state.progress =
        ⟨2, "active"⟩
    ∧ (tool_deploy (ProcBehavior.exits ["building\n"] 0) initState).state.progress =
        ⟨3, "active"⟩
    ∧ (tool_deploy (ProcBehavior.readRaise [] "io failure") initState).state.progress ≠
        (tool_deploy (ProcBehavior.exits ["building\n"] 0) initState).state.progress := by
  exact ⟨by decide, by decide, by decide, by decide⟩

theorem tool_deploy_trace_cases (b : ProcBehavior) (st : AppState) :
    (tool_deploy b st).trace = [⟨2, "active"⟩]
    ∨ (tool_deploy b st).trace = [⟨2, "active"⟩, ⟨3, "active"⟩]
    ∨ (tool_deploy b st).trace = [⟨2, "active"⟩, ⟨3, "active"⟩, ⟨3, "completed"⟩]
    ∨ (tool_deploy b st).trace = [⟨2, "active"⟩, ⟨3, "active"⟩, ⟨4, "completed"⟩] := by
  cases b with
  | spawnRaise msg =>
    left
    simp [tool_deploy, run_cli_stream]
  | readRaise got msg =>
    left
    simp only [tool_deploy, run_cli_stream]
    rw [deployLoop_lines_error]
  | exits ls rc =>
    simp only [tool_deploy, run_cli_stream]
    rw [deployLoop_lines_ends]
    cases hex : extract_last_json_block (String.join ls) with
    | none =>
      right; left
      simp [hex]
    | some v =>
      cases ht : jsonTruthy v with
      | false =>
        right; left
        simp [hex, ht]
      | true =>
        cases hu : dictGet v "url" with
        | none =>
          right; right; left
          simp [hex, ht, hu]
        | some u =>
          cases htu : jsonTruthy u with
          | false =>
            right; right; left
            simp [hex, ht, hu, htu]
          | true =>
            cases u with
            | str s =>
              right; right; right
              simp [hex, ht, hu, htu]
            | null => right; left; simp [hex, ht, hu, htu]
            | bool bb => right; left; simp [hex, ht, hu, htu]
            | num lit => right; left; simp [hex, ht, hu, htu]
            | arr xs => right; left; simp [hex, ht, hu, htu]
            | obj fields => right; left; simp [hex, ht, hu, htu]

/-- C6: within one deploy invocation the sequence of progress states
written by the tracker is monotone in the step value (2 active, then 3
active, then terminally 3 or 4), and no written update carries status
`idle`, so in particular no update transitions directly from idle to
completed. -/
theorem tool_deploy_progress_monotone (b : ProcBehavior) (st : AppState) :
    List.Chain' (fun p q => p.step ≤ q.step) (tool_deploy b st).trace
    ∧ (tool_deploy b st).trace.head? = some ⟨2, "active"⟩
    ∧ ∀ pr ∈ (tool_deploy b st).trace, pr.status ≠ "idle" := by
  rcases tool_deploy_trace_cases b st with h | h | h | h <;> rw [h] <;>
    exact ⟨by simp [List.chain'_cons], rfl, by decide⟩

theorem filter_terminal_map_line (ls : List String) :
    ((ls.map StreamEvent.line).filter StreamEvent.isTerminal) = [] := by
  induction ls with
  | nil => rfl
  | cons l tl ih => simp [List.filter_cons, StreamEvent.isTerminal, ih]

/-- C3 counterexample: a spawn failure does not surface as an `Error`
stream event — `Popen` sits outside the `try` block, so the exception
propagates out of the generator and no event sequence is produced at
all. -/
theorem run_cli_stream_spawn_cex :
    run_cli_stream (ProcBehavior.spawnRaise "spawn failed") = Except.error "spawn failed"
    ∧ ¬ ∃ out, run_cli_stream (ProcBehavior.spawnRaise "spawn failed") = Except.ok out := by
  refine ⟨rfl, ?_⟩
  rintro ⟨out, h⟩
  simp [run_cli_stream] at h

/-- C3 (amended): when reading the output raises, the runner attempts to
terminate the child process and yields exactly one `Error` event carrying
the exception message, after the lines already delivered and with no
event after it; a spawn failure, by contrast, propagates out of the
generator as a raised exception and yields no event. -/
theorem run_cli_stream_read_failure (got : List String) (msg : String) (out : RunOutcome)
    (h : run_cli_stream (ProcBehavior.readRaise got msg) = Except.ok out) :
    out.killAttempted = true
    ∧ out.events = got.map StreamEvent.line ++ [StreamEvent.error msg]
    ∧ (out.events.filter StreamEvent.isTerminal) = [StreamEvent.error msg]
    ∧ out.events.getLast? = some (StreamEvent.error msg)
    ∧ ∀ msg2, run_cli_stream (ProcBehavior.spawnRaise msg2) = Except.error msg2 := by
  simp only [run_cli_stream, Except.ok.injEq] at h
  rw [← h]
  refine ⟨rfl, rfl, ?_, ?_, fun msg2 => rfl⟩
  · simp [List.filter_append, filter_terminal_map_line, List.filter_cons, StreamEvent.isTerminal]
  · exact List.getLast?_concat _

theorem run_cli_stream_read_failure_witness :
    run_cli_stream (ProcBehavior.readRaise ["partial line\n"] "io interrupted") =
      Except.ok ⟨[StreamEvent.line "partial line\n", StreamEvent.error "io interrupted"], true⟩
    ∧ ([StreamEvent.line "partial line\n", StreamEvent.error "io interrupted"].filter
        StreamEvent.isTerminal) = [StreamEvent.error "io interrupted"] :=
  ⟨rfl,
   (run_cli_stream_read_failure ["partial line\n"] "io interrupted"
      ⟨[StreamEvent.line "partial line\n", StreamEvent.error "io interrupted"], true⟩
      rfl).2.2.1⟩

/-- C4 counterexample: an invocation whose spawn raises produces no events
at all — the produced sequence is empty and is not of the form "zero or
more `Line` events followed by exactly one terminal event". -/
theorem producedEvents_spawn_cex :
    producedEvents (ProcBehavior.spawnRaise "spawn oops") = []
    ∧ ¬ ∃ (ls : List String) (t : StreamEvent),
        producedEvents (ProcBehavior.spawnRaise "spawn oops") =
          ls.map StreamEvent.line ++ [t] := by
  refine ⟨rfl, ?_⟩
  rintro ⟨ls, t, h⟩
  rw [show producedEvents (ProcBehavior.spawnRaise "spawn oops") = [] from rfl] at h
  exact absurd h.symm (by simp)

/-- C4 (amended): whenever the generator yields events (any invocation
where spawning succeeded), the sequence is the delivered lines, in order,
each as a `Line` event, followed by exactly one terminal event; on a
normal exit that terminal is `End` carrying the exit code and the full
concatenation of all line texts yielded.  A spawn failure produces no
event sequence (the exception propagates instead). -/
theorem run_cli_stream_event_shape (b : ProcBehavior) (out : RunOutcome)
    (h : run_cli_stream b = Except.ok out) :
    ∃ t, out.events = (procLines b).map StreamEvent.line ++ [t]
      ∧ t.isTerminal = true
      ∧ (∀ e ∈ (procLines b).map StreamEvent.line, e.isLine = true)
      ∧ ((out.events.filter StreamEvent.isTerminal) = [t])
      ∧ ∀ ls rc, b = ProcBehavior.exits ls rc → t = StreamEvent.ends rc (String.join ls) := by
  cases b with
  | spawnRaise msg => simp [run_cli_stream] at h
  | readRaise got msg =>
    simp only [run_cli_stream, Except.ok.injEq] at h
    refine ⟨StreamEvent.error msg, by rw [← h]; rfl, rfl, ?_, ?_, ?_⟩
    · intro e he
      simp only [List.mem_map] at he
      obtain ⟨x, _, hx⟩ := he
      rw [← hx]
      rfl
    · rw [← h]
      simp [List.filter_append, filter_terminal_map_line, List.filter_cons, StreamEvent.isTerminal]
    · intro ls rc heq
      cases heq
  | exits ls0 rc0 =>
    simp only [run_cli_stream, Except.ok.injEq] at h
    refine ⟨StreamEvent.ends rc0 (String.join ls0), by rw [← h]; rfl, rfl, ?_, ?_, ?_⟩
    · intro e he
      simp only [List.mem_map] at he
      obtain ⟨x, _, hx⟩ := he
      rw [← hx]
      rfl
    · rw [← h]
      simp [List.filter_append, filter_terminal_map_line, List.filter_cons, StreamEvent.isTerminal]
    · intro ls rc heq
      cases heq
      rfl

theorem run_cli_stream_event_shape_witness :
    run_cli_stream (ProcBehavior.exits ["a\n", "b\n"] 0) =
      Except.ok ⟨[StreamEvent.line "a\n", StreamEvent.line "b\n", StreamEvent.ends 0 "a\nb\n"], false⟩
    ∧ ∃ t, (⟨[StreamEvent.line "a\n", StreamEvent.line "b\n", StreamEvent.ends 0 "a\nb\n"],
              false⟩ : RunOutcome).events =
          (procLines (ProcBehavior.exits ["a\n", "b\n"] 0)).map StreamEvent.line ++ [t]
        ∧ t.isTerminal = true
        ∧ (∀ e ∈ (procLines (ProcBehavior.exits ["a\n", "b\n"] 0)).map StreamEvent.line,
            e.isLine = true)
        ∧ ((⟨[StreamEvent.line "a\n", StreamEvent.line "b\n", StreamEvent.ends 0 "a\nb\n"],
              false⟩ : RunOutcome).events.filter StreamEvent.isTerminal) = [t]
        ∧ ∀ ls rc, ProcBehavior.exits ["a\n", "b\n"] 0 = ProcBehavior.exits ls rc →
            t = StreamEvent.ends rc (String.join ls) :=
  ⟨rfl,
   run_cli_stream_event_shape (ProcBehavior.exits ["a\n", "b\n"] 0)
     ⟨[StreamEvent.line "a\n", StreamEvent.line "b\n", StreamEvent.ends 0 "a\nb\n"], false⟩
     rfl⟩

theorem dictGet_some_truthy (v : Json) (k : String) (u : Json)
    (h : dictGet v k = some u) : jsonTruthy v = true := by
  cases v with
  | null => simp [dictGet] at h
  | bool b => simp [dictGet] at h
  | num lit => simp [dictGet] at h
  | str s => simp [dictGet] at h
  | arr xs => simp [dictGet] at h
  | obj fields =>
    cases fields with
    | nil => simp [dictGet, JsonFields.toList] at h
    | cons k1 v1 tl => simp [jsonTruthy, JsonFields.isNil]

theorem str_truthy (u : String) (h : u ≠ "") : jsonTruthy (Json.str u) = true := by
  have hemp : u.isEmpty = false := by
    cases h2 : u.isEmpty with
    | false => rfl
    | true => exact absurd ((String.isEmpty_iff u).mp h2) h
  simp [jsonTruthy, hemp]

theorem normalize_url_eq_spec (u : String) (h : u ≠ "") :
    normalize_url (some u) = some (specNormalize (pyStrip u)) := by
  have hemp : u.isEmpty = false := by
    cases h2 : u.isEmpty with
    | false => rfl
    | true => exact absurd ((String.isEmpty_iff u).mp h2) h
  simp only [normalize_url, specNormalize, hemp, Bool.false_eq_true, if_false]
  split_ifs <;> rfl

/-- C5 (amended): a deploy invocation whose extracted trailing record
carries a nonempty string `url` field caches the normalized form of that
url — where normalization first strips surrounding whitespace and then
leaves the value unchanged if it starts with `http://` or `https://`,
prefixes `https:` if it starts with `//`, and prefixes `https://`
otherwise — and the progress state at the end of the invocation is step 4
with status completed. -/
theorem tool_deploy_url_cached (ls : List String) (rc : Int) (st : AppState)
    (v : Json) (u : String)
    (hex : extract_last_json_block (String.join ls) = some v)
    (hurl : dictGet v "url" = some (Json.str u))
    (hu : u ≠ "") :
    (tool_deploy (ProcBehavior.exits ls rc) st).result = Except.ok v
    ∧ (tool_deploy (ProcBehavior.exits ls rc) st).state.lastDeployUrl =
        some (specNormalize (pyStrip u))
    ∧ (tool_deploy (ProcBehavior.exits ls rc) st).state.progress = ⟨4, "completed"⟩
    ∧ (tool_deploy (ProcBehavior.exits ls rc) st).trace =
        [⟨2, "active"⟩, ⟨3, "active"⟩, ⟨4, "completed"⟩] := by
  have htv : jsonTruthy v = true := dictGet_some_truthy v "url" (Json.str u) hurl
  have htu : jsonTruthy (Json.str u) = true := str_truthy u hu
  have hnorm := normalize_url_eq_spec u hu
  simp only [tool_deploy, run_cli_stream]
  rw [deployLoop_lines_ends]
  simp [hex, htv, hurl, htu, hnorm, update_progress_step]

theorem tool_deploy_url_cached_witness :
    extract_last_json_block
        (String.join
          ["Building...\n", "Uploading...\n",
           "\x7b\"type\":\"Success\",\"url\":\"myapp.vercel.app\"\x7d\n"]) =
      some (Json.obj (JsonFields.ofList
        [("type", Json.str "Success"), ("url", Json.str "myapp.vercel.app")]))
    ∧ (tool_deploy
        (ProcBehavior.exits
          ["Building...\n", "Uploading...\n",
           "\x7b\"type\":\"Success\",\"url\":\"myapp.vercel.app\"\x7d\n"] 0)
        initState).state.lastDeployUrl = some "https://myapp.vercel.app"
    ∧ (tool_deploy
        (ProcBehavior.exits
          ["Building...\n", "Uploading...\n",
           "\x7b\"type\":\"Success\",\"url\":\"myapp.vercel.app\"\x7d\n"] 0)
        initState).state.progress = ⟨4, "completed"⟩ :=
  ⟨by decide,
   by
     rw [(tool_deploy_url_cached
        ["Building...\n", "Uploading...\n",
         "\x7b\"type\":\"Success\",\"url\":\"myapp.vercel.app\"\x7d\n"] 0 initState
        (Json.obj (JsonFields.ofList
          [("type", Json.str "Success"), ("url", Json.str "myapp.vercel.app")]))
        "myapp.vercel.app" (by decide) (by decide) (by decide)).2.1]
     decide,
   (tool_deploy_url_cached
      ["Building...\n", "Uploading...\n",
       "\x7b\"type\":\"Success\",\"url\":\"myapp.vercel.app\"\x7d\n"] 0 initState
      (Json.obj (JsonFields.ofList
        [("type", Json.str "Success"), ("url", Json.str "myapp.vercel.app")]))
      "myapp.vercel.app" (by decide) (by decide) (by decide)).2.2.1⟩

/-- C5 counterexample: a record whose url field is " myapp.vercel.app"
(leading space) caches "https://myapp.vercel.app" — the source strips the
value before prefixing — while the normalization rules as claimed, which
never strip, would produce "https:// myapp.vercel.app"; the claimed cached
value is refuted at this input. -/
theorem tool_deploy_url_normalization_cex :
    extract_last_json_block
        (String.join ["\x7b\"type\":\"Success\",\"url\":\" myapp.vercel.app\"\x7d\n"]) =
      some (Json.obj (JsonFields.ofList
        [("type", Json.str "Success"), ("url", Json.str " myapp.vercel.app")]))
    ∧ (tool_deploy
        (ProcBehavior.exits ["\x7b\"type\":\"Success\",\"url\":\" myapp.vercel.app\"\x7d\n"] 0)
        initState).state.lastDeployUrl = some "https://myapp.vercel.app"
    ∧ specNormalize " myapp.vercel.app" = "https:// myapp.vercel.app"
    ∧ some ("https://myapp.vercel.app" : String) ≠ some ("https:// myapp.vercel.app" : String) := by
  exact ⟨by decide, by decide, by decide, by decide⟩

/-- C7: the session preference merge of `tool_modify_plan` is idempotent —
merging the same update twice equals merging it once — and is
field-wise last-write-wins with absent fields left untouched: merging
provider=netlify, then method=cli, then provider=vercel leaves
method=cli intact and only overrides the provider. -/
theorem tool_modify_plan_merge (prefs : Prefs)
    (provider method output_dir domain : Option String) :
    tool_modify_plan provider method output_dir domain
        (tool_modify_plan provider method output_dir domain prefs) =
      tool_modify_plan provider method output_dir domain prefs
    ∧ (tool_modify_plan none method output_dir domain prefs).provider = prefs.provider
    ∧ (tool_modify_plan provider none output_dir domain prefs).method = prefs.method
    ∧ (tool_modify_plan provider method none domain prefs).output_dir = prefs.output_dir
    ∧ (tool_modify_plan provider method output_dir none prefs).domain = prefs.domain
    ∧ tool_modify_plan (some "vercel") none none none
        (tool_modify_plan none (some "cli") none none
          (tool_modify_plan (some "netlify") none none none prefs)) =
      ⟨some "vercel", some "cli", prefs.output_dir, prefs.domain⟩ := by
  refine ⟨?_, ?_, ?_, ?_, ?_, rfl⟩
  · simp only [tool_modify_plan]
    cases hp : pyTruthyOptStr provider <;> cases hm : pyTruthyOptStr method <;>
      cases ho : pyTruthyOptStr output_dir <;> cases hd : pyTruthyOptStr domain <;>
      simp [hp, hm, ho, hd]
  · simp [tool_modify_plan, pyTruthyOptStr]
  · simp [tool_modify_plan, pyTruthyOptStr]
  · simp [tool_modify_plan, pyTruthyOptStr]
  · simp [tool_modify_plan, pyTruthyOptStr]

theorem diagLoop_ne_rejected : ∀ evs, diagLoop evs ≠ DiagnoseResult.rejected := by
  intro evs
  induction evs with
  | nil => simp [diagLoop]
  | cons e rest ih =>
    cases e with
    | line t => simpa [diagLoop] using ih
    | ends rc full =>
      simp only [diagLoop]
      cases loadsL full.data <;> simp
    | error msg => simp [diagLoop]

/-- C8: a diagnose call with both the log file path and the record
identifier absent returns the descriptive rejection before any command is
built — no process is spawned — while a call with at least one of the two
present (truthy) proceeds to invoke the external tool and is never
answered with the rejection message. -/
theorem tool_diagnose_missing_input (pp lp rid : Option String) (b : ProcBehavior) :
    tool_diagnose pp none none b = (Except.ok DiagnoseResult.rejected, false)
    ∧ ((pyTruthyOptStr lp || pyTruthyOptStr rid) = true →
        (tool_diagnose pp lp rid b).2 = true
        ∧ ∀ r, (tool_diagnose pp lp rid b).1 = Except.ok r → r ≠ DiagnoseResult.rejected) := by
  constructor
  · rfl
  · intro h
    have hcond : (!pyTruthyOptStr lp && !pyTruthyOptStr rid) = false := by
      cases hl : pyTruthyOptStr lp <;> cases hr : pyTruthyOptStr rid <;> simp_all
    simp only [tool_diagnose, hcond, Bool.false_eq_true, if_false]
    cases hb : run_cli_stream b with
    | error msg =>
      exact ⟨rfl, fun r hr => by simp at hr⟩
    | ok out =>
      refine ⟨rfl, fun r hr => ?_⟩
      have hr2 : diagLoop out.events = r := by simpa using hr
      rw [← hr2]
      exact diagLoop_ne_rejected out.events

theorem tool_diagnose_missing_input_witness :
    tool_diagnose none none none (ProcBehavior.exits ["output\n"] 0) =
      (Except.ok DiagnoseResult.rejected, false)
    ∧ (pyTruthyOptStr (some "/tmp/deploy.log") || pyTruthyOptStr (none : Option String)) = true
    ∧ (tool_diagnose none (some "/tmp/deploy.log") none (ProcBehavior.exits ["output\n"] 0)).2 =
        true :=
  ⟨(tool_diagnose_missing_input none none none (ProcBehavior.exits ["output\n"] 0)).1,
   by decide,
   ((tool_diagnose_missing_input none (some "/tmp/deploy.log") none
       (ProcBehavior.exits ["output\n"] 0)).2 (by decide)).1⟩

theorem isEmpty_false_of_ne (p : String) (h : p ≠ "") : p.isEmpty = false := by
  cases h2 : p.isEmpty with
  | false => rfl
  | true => exact absurd ((String.isEmpty_iff p).mp h2) h

theorem findRecordRev_all_obj (rid : String) :
    ∀ items : List Json, (∀ r ∈ items, Json.isObj r = true) →
      findRecordRev rid items = Except.ok (items.find? (idMatches rid)) := by
  intro items
  induction items with
  | nil => intro _; rfl
  | cons r rs ih =>
    intro h
    have hr : Json.isObj r = true := h r (List.mem_cons_self r rs)
    cases r with
    | obj fields =>
      rw [findRecordRev, List.find?]
      cases hm : idMatches rid (Json.obj fields) with
      | true => simp [hm]
      | false =>
        simp only [hm, Bool.false_eq_true, if_false]
        exact ih (fun x hx => h x (List.mem_cons_of_mem _ hx))
    | null => simp [Json.isObj] at hr
    | bool b => simp [Json.isObj] at hr
    | num lit => simp [Json.isObj] at hr
    | str s => simp [Json.isObj] at hr
    | arr xs => simp [Json.isObj] at hr

/-- C9: a tail-logs call resolves its record identifier by scanning the
decoded deployment history from most recent (last) to oldest (first) and
taking the first record whose `id` matches; with no match it returns the
"no record found" outcome and reads no log file; a matched record whose
log path is absent or names no existing file yields the distinct
"no logs" soft outcome, again without reading; otherwise the result is at
most the last 200 lines of that log file (a suffix of its lines). -/
theorem tool_tail_logs_resolution (fs : FileSys) (rid txt : String) (items : JsonElems)
    (hfile : fs.deploymentsJson = some txt)
    (hload : loadsL txt.data = some (Json.arr items))
    (hobj : ∀ r ∈ items.toList, Json.isObj r = true) :
    (items.toList.reverse.find? (idMatches rid) = none →
      tool_tail_logs rid fs = (TailResult.noRecord rid, false))
    ∧ (∀ r, items.toList.reverse.find? (idMatches rid) = some r →
        (dictGet r "logsPath" = none →
          tool_tail_logs rid fs = (TailResult.noLogs none, false))
        ∧ (∀ p, dictGet r "logsPath" = some (Json.str p) → p ≠ "" → fsRead fs p = none →
            tool_tail_logs rid fs = (TailResult.noLogs (some (Json.str p)), false))
        ∧ (∀ p c, dictGet r "logsPath" = some (Json.str p) → p ≠ "" → fsRead fs p = some c →
            tool_tail_logs rid fs =
              (TailResult.logs (String.intercalate "\n" (lastN 200 (splitlines c))), true)
            ∧ (lastN 200 (splitlines c)).length ≤ 200
            ∧ lastN 200 (splitlines c) <:+ splitlines c))
    ∧ (∀ lp, (TailResult.noRecord rid) ≠ TailResult.noLogs lp) := by
  have hobjrev : ∀ r ∈ items.toList.reverse, Json.isObj r = true := by
    intro r hr
    exact hobj r (List.mem_reverse.mp hr)
  have hfind := findRecordRev_all_obj rid items.toList.reverse hobjrev
  refine ⟨?_, ?_, ?_⟩
  · intro hnone
    simp [tool_tail_logs, hfile, hload, hfind, hnone]
  · intro r hsome
    refine ⟨?_, ?_, ?_⟩
    · intro hlp
      simp [tool_tail_logs, hfile, hload, hfind, hsome, hlp]
    · intro p hp hpne hread
      have hpe : p.isEmpty = false := isEmpty_false_of_ne p hpne
      simp [tool_tail_logs, hfile, hload, hfind, hsome, hp, hpe, hread]
    · intro p c hp hpne hread
      have hpe : p.isEmpty = false := isEmpty_false_of_ne p hpne
      refine ⟨by simp [tool_tail_logs, hfile, hload, hfind, hsome, hp, hpe, hread], ?_, ?_⟩
      · rw [lastN, List.length_drop]
        omega
      · exact List.drop_suffix _ _
  · intro lp
    simp

theorem tool_tail_logs_resolution_witness :
    tool_tail_logs "a"
        ⟨some "[\x7b\"id\": \"a\", \"logsPath\": \"old.log\"\x7d, \x7b\"id\": \"a\", \"logsPath\": \"new.log\"\x7d]",
         [("new.log", "l1\nl2\nl3\n"), ("old.log", "older content\n")]⟩ =
      (TailResult.logs "l1\nl2\nl3", true)
    ∧ tool_tail_logs "zzz"
        ⟨some "[\x7b\"id\": \"a\", \"logsPath\": \"old.log\"\x7d, \x7b\"id\": \"a\", \"logsPath\": \"new.log\"\x7d]",
         [("new.log", "l1\nl2\nl3\n"), ("old.log", "older content\n")]⟩ =
      (TailResult.noRecord "zzz", false) := by
  constructor
  · have h :=
      ((tool_tail_logs_resolution
          ⟨some "[\x7b\"id\": \"a\", \"logsPath\": \"old.log\"\x7d, \x7b\"id\": \"a\", \"logsPath\": \"new.log\"\x7d]",
           [("new.log", "l1\nl2\nl3\n"), ("old.log", "older content\n")]⟩
          "a"
          "[\x7b\"id\": \"a\", \"logsPath\": \"old.log\"\x7d, \x7b\"id\": \"a\", \"logsPath\": \"new.log\"\x7d]"
          (JsonElems.ofList
            [Json.obj (JsonFields.ofList [("id", Json.str "a"), ("logsPath", Json.str "old.log")]),
             Json.obj (JsonFields.ofList [("id", Json.str "a"), ("logsPath", Json.str "new.log")])])
          rfl (by decide) (by decide)).2.1
        (Json.obj (JsonFields.ofList [("id", Json.str "a"), ("logsPath", Json.str "new.log")]))
        (by decide)).2.2 "new.log" "l1\nl2\nl3\n" (by decide) (by decide) (by decide)
    rw [h.1]
    decide
  · exact
      (tool_tail_logs_resolution
          ⟨some "[\x7b\"id\": \"a\", \"logsPath\": \"old.log\"\x7d, \x7b\"id\": \"a\", \"logsPath\": \"new.log\"\x7d]",
           [("new.log", "l1\nl2\nl3\n"), ("old.log", "older content\n")]⟩
          "zzz"
          "[\x7b\"id\": \"a\", \"logsPath\": \"old.log\"\x7d, \x7b\"id\": \"a\", \"logsPath\": \"new.log\"\x7d]"
          (JsonElems.ofList
            [Json.obj (JsonFields.ofList [("id", Json.str "a"), ("logsPath", Json.str "old.log")]),
             Json.obj (JsonFields.ofList [("id", Json.str "a"), ("logsPath", Json.str "new.log")])])
          rfl (by decide) (by decide)).1 (by decide)
